import Mathlib

/-!
Shallow embedding of the in-memory task store and HTTP handlers of
`main.go` (a minimal CRUD service over task records).

The Go map `tasks : map[int]Task` is modelled as an association list with
the usual map operations (`mapLookup`, `mapInsert`, `mapErase`); the global
`nextID` counter travels with the map in a `Store` structure.  Each HTTP
handler becomes a pure function from the current store and the
already-decoded request data to the new store and an HTTP response.  The
mutex serializes handler bodies in the Go program, so a run of the service
is a sequence of atomic handler steps (`stepOp` / `runOps`).

JSON decoding is modelled at the boundary: a request body is `none` when
`json.Decode` fails, otherwise the decoded struct.  Go zero values make an
absent `description` field decode to `""` in the create payload, while the
update payload uses pointer fields, hence `Option` fields here.
`http.Error` writes the given string with Content-Type
`text/plain; charset=utf-8`; the handlers set `application/json` only on
their success paths, mirroring the source.
-/

namespace TaskAPI

/-- `Task` record, from `main.go` lines 15-19. -/
structure Task where
  id : Int
  description : String
  done : Bool
deriving Repr, DecidableEq

/-- The global state of the service: the `tasks` map (modelled as an
association list) and the `nextID` counter, from `main.go` lines 21-25. -/
structure Store where
  tasks : List (Int × Task)
  nextID : Int
deriving Repr, DecidableEq

/-- Initial state: empty map, `nextID = 1`. -/
def Store.init : Store := ⟨[], 1⟩

/-- Go map read `tasks[id]` with its `ok` flag, as an `Option`. -/
def mapLookup (m : List (Int × Task)) (k : Int) : Option Task :=
  match m with
  | [] => none
  | (k1, v) :: rest => if k1 = k then some v else mapLookup rest k

/-- Go map write `tasks[k] = v`: replace in place if the key is present,
append otherwise. -/
def mapInsert (m : List (Int × Task)) (k : Int) (v : Task) : List (Int × Task) :=
  match m with
  | [] => [(k, v)]
  | (k1, v1) :: rest => if k1 = k then (k, v) :: rest else (k1, v1) :: mapInsert rest k v

/-- Go `delete(tasks, k)`: remove the entry with key `k`. -/
def mapErase (m : List (Int × Task)) (k : Int) : List (Int × Task) :=
  m.filter (fun p => p.1 != k)

/-- `strconv.Atoi` on the path parameter: optional sign followed by at
least one decimal digit; everything else is an error (`none`).  Overflow
of Go's `int` is not modelled (path ids in scope are tiny). -/
def parseDigitsAux : List Char → Nat → Option Nat
  | [], acc => some acc
  | c :: cs, acc => if c.isDigit then parseDigitsAux cs (acc * 10 + (c.toNat - 48)) else none

/-- Parse a non-empty digit string to a `Nat`. -/
def parseDigits (cs : List Char) : Option Nat :=
  match cs with
  | [] => none
  | _ => parseDigitsAux cs 0

/-- `strconv.Atoi`, returning `none` on a parse error. -/
def atoi (s : String) : Option Int :=
  match s.data with
  | [] => none
  | '+' :: cs => (parseDigits cs).map (fun n => (n : Int))
  | '-' :: cs => (parseDigits cs).map (fun n => -(n : Int))
  | cs => (parseDigits cs).map (fun n => (n : Int))

/-- The body of an HTTP response, kept structured: a single task, a task
list, an error object, the health payload, or nothing (204). -/
inductive RespBody where
  | task (t : Task)
  | taskList (ts : List Task)
  | errorObj (msg : String)
  | health
  | empty
deriving Repr, DecidableEq

/-- An HTTP response: status code, Content-Type header (absent for the
body-less 204 reply), body. -/
structure Response where
  status : Nat
  contentType : Option String
  body : RespBody
deriving Repr, DecidableEq

/-- Content-Type set by the handlers on JSON success paths. -/
def ctJSON : String := "application/json"

/-- Content-Type that Go's `http.Error` sets on every error reply. -/
def ctPlain : String := "text/plain; charset=utf-8"

/-- `http.Error(w, msg, code)`: plain-text reply carrying the error
string (which in this program is always a JSON-shaped error object). -/
def httpError (msg : String) (code : Nat) : Response :=
  ⟨code, some ctPlain, .errorObj msg⟩

/-- JSON rendering of a bool. -/
def encodeBool (b : Bool) : String := if b then "true" else "false"

/-- JSON rendering of a task, as `encoding/json` produces for `Task`. -/
def encodeTask (t : Task) : String :=
  "\x7b\"id\":" ++ toString t.id ++ ",\"description\":\"" ++ t.description
    ++ "\",\"done\":" ++ encodeBool t.done ++ "\x7d"

/-- JSON rendering of a task list; the handler builds a non-nil slice, so
the empty store renders as `[]`, never `null`. -/
def encodeTaskList (ts : List Task) : String :=
  "[" ++ String.intercalate "," (ts.map encodeTask) ++ "]"

/-- The error bodies written through `http.Error` in the source. -/
def encodeError (msg : String) : String :=
  "\x7b\"error\": \"" ++ msg ++ "\"\x7d"

/-- Wire rendering of a response body. -/
def encodeBody : RespBody → String
  | .task t => encodeTask t
  | .taskList ts => encodeTaskList ts
  | .errorObj msg => encodeError msg
  | .health => "\x7b\"status\":\"ok\"\x7d"
  | .empty => ""

/-- `healthCheckHandler` (`main.go` lines 27-31). -/
def healthCheckHandler : Response := ⟨200, some ctJSON, .health⟩

/-- Decoded create payload: Go's zero value makes an absent
`description` field decode to `""`. -/
structure CreateInput where
  description : String
deriving Repr, DecidableEq

/-- `createTaskHandler` (`main.go` lines 33-61).  `body = none` models a
JSON decode error. -/
def createTaskHandler (s : Store) (body : Option CreateInput) : Store × Response :=
  match body with
  | none => (s, httpError "Invalid request body" 400)
  | some input =>
    if input.description = "" then
      (s, httpError "Missing \x27description\x27 in request body" 400)
    else
      let newTask : Task := ⟨s.nextID, input.description, false⟩
      (⟨mapInsert s.tasks s.nextID newTask, s.nextID + 1⟩,
        ⟨201, some ctJSON, .task newTask⟩)

/-- `getTasksHandler` (`main.go` lines 63-75): snapshot of the map's
values (Go map iteration order is arbitrary; the association list's order
stands in for one such order). -/
def getTasksHandler (s : Store) : Store × Response :=
  (s, ⟨200, some ctJSON, .taskList (s.tasks.map Prod.snd)⟩)

/-- `getTaskHandler` (`main.go` lines 77-97). -/
def getTaskHandler (s : Store) (idStr : String) : Store × Response :=
  match atoi idStr with
  | none => (s, httpError "Invalid task ID" 400)
  | some id =>
    match mapLookup s.tasks id with
    | none => (s, httpError "Task not found" 404)
    | some task => (s, ⟨200, some ctJSON, .task task⟩)

/-- Decoded update payload: pointer fields distinguish an absent field
(`none`) from one supplied with an explicit value. -/
structure UpdateInput where
  description : Option String
  done : Option Bool
deriving Repr, DecidableEq

/-- The field-by-field patch of `main.go` lines 126-131: each field is
replaced exactly when the payload supplies it (non-nil pointer). -/
def applyUpdate (input : UpdateInput) (task : Task) : Task :=
  let task1 := match input.description with
    | some d => { task with description := d }
    | none => task
  match input.done with
  | some b => { task1 with done := b }
  | none => task1

/-- `updateTaskHandler` (`main.go` lines 99-138). -/
def updateTaskHandler (s : Store) (idStr : String) (body : Option UpdateInput) :
    Store × Response :=
  match atoi idStr with
  | none => (s, httpError "Invalid task ID" 400)
  | some id =>
    match body with
    | none => (s, httpError "Invalid request body" 400)
    | some input =>
      match mapLookup s.tasks id with
      | none => (s, httpError "Task not found" 404)
      | some task =>
        let task2 := applyUpdate input task
        (⟨mapInsert s.tasks id task2, s.nextID⟩, ⟨200, some ctJSON, .task task2⟩)

/-- `deleteTaskHandler` (`main.go` lines 140-161). -/
def deleteTaskHandler (s : Store) (idStr : String) : Store × Response :=
  match atoi idStr with
  | none => (s, httpError "Invalid task ID" 400)
  | some id =>
    match mapLookup s.tasks id with
    | none => (s, httpError "Task not found" 404)
    | some _ => (⟨mapErase s.tasks id, s.nextID⟩, ⟨204, none, .empty⟩)

/-- One inbound request, with its already-decoded data. -/
inductive Op where
  | health
  | create (body : Option CreateInput)
  | list
  | get (idStr : String)
  | update (idStr : String) (body : Option UpdateInput)
  | delete (idStr : String)
deriving Repr, DecidableEq

/-- One atomic handler step (the mutex serializes handler bodies, so a
service run is a sequence of these). -/
def stepOp (s : Store) : Op → Store × Response
  | .health => (s, healthCheckHandler)
  | .create b => createTaskHandler s b
  | .list => getTasksHandler s
  | .get i => getTaskHandler s i
  | .update i b => updateTaskHandler s i b
  | .delete i => deleteTaskHandler s i

/-- Run a sequence of requests, keeping only the final store. -/
def runOps (s : Store) (ops : List Op) : Store :=
  ops.foldl (fun s op => (stepOp s op).1) s

/-- Run a sequence of creates (one per description), returning the final
store together with the ids carried by the success responses, in order. -/
def runCreates (s : Store) (ds : List String) : Store × List Int :=
  match ds with
  | [] => (s, [])
  | d :: rest =>
    let res := createTaskHandler s (some ⟨d⟩)
    let tail := runCreates res.1 rest
    (tail.1,
      (match res.2.body with
        | .task t => [t.id]
        | _ => []) ++ tail.2)

/-- The ids assigned by creating `ds` in order from the empty store. -/
def createdIds (ds : List String) : List Int := (runCreates Store.init ds).2

/-- Well-formedness of a reachable store: keys are distinct, every entry's
`id` field equals its key, and every key is below `nextID`. -/
def WF (s : Store) : Prop :=
  (s.tasks.map Prod.fst).Nodup ∧ ∀ p ∈ s.tasks, p.2.id = p.1 ∧ p.1 < s.nextID

instance : DecidablePred WF := fun s => by
  unfold WF; infer_instance

/-! ### Association-list map lemmas -/

theorem mapLookup_mapInsert_self (m : List (Int × Task)) (k : Int) (v : Task) :
    mapLookup (mapInsert m k v) k = some v := by
  induction m with
  | nil => simp [mapInsert, mapLookup]
  | cons p rest ih =>
    obtain ⟨k1, v1⟩ := p
    by_cases h : k1 = k <;> simp [mapInsert, mapLookup, h, ih]

theorem mapLookup_mapInsert_ne (m : List (Int × Task)) (k k1 : Int) (v : Task)
    (h : k1 ≠ k) : mapLookup (mapInsert m k v) k1 = mapLookup m k1 := by
  have hk : ¬ k = k1 := fun e => h e.symm
  induction m with
  | nil => simp [mapInsert, mapLookup, hk]
  | cons p rest ih =>
    obtain ⟨k2, v2⟩ := p
    by_cases h2 : k2 = k
    · have hk2 : ¬ k2 = k1 := by rw [h2]; exact hk
      simp [mapInsert, mapLookup, h2, hk, hk2]
    · simp [mapInsert, mapLookup, h2, ih]

theorem mapLookup_mapErase_self (m : List (Int × Task)) (k : Int) :
    mapLookup (mapErase m k) k = none := by
  induction m with
  | nil => rfl
  | cons p rest ih =>
    obtain ⟨k1, v1⟩ := p
    by_cases h : k1 = k
    · simpa [mapErase, List.filter_cons, h] using ih
    · simpa [mapErase, List.filter_cons, bne_iff_ne, h, mapLookup] using ih

theorem mapLookup_mapErase_ne (m : List (Int × Task)) (k k1 : Int) (h : k1 ≠ k) :
    mapLookup (mapErase m k) k1 = mapLookup m k1 := by
  induction m with
  | nil => rfl
  | cons p rest ih =>
    obtain ⟨k2, v2⟩ := p
    have hk1 : ¬ k = k1 := fun e => h e.symm
    by_cases h2 : k2 = k
    · simpa [mapErase, List.filter_cons, h2, mapLookup, hk1] using ih
    · by_cases h3 : k2 = k1
      · simp [mapErase, List.filter_cons, bne_iff_ne, h2, mapLookup, h3, h]
      · simpa [mapErase, List.filter_cons, bne_iff_ne, h2, mapLookup, h3] using ih

theorem mem_mapInsert (m : List (Int × Task)) (k : Int) (v : Task) (p : Int × Task)
    (hp : p ∈ mapInsert m k v) : p = (k, v) ∨ p ∈ m := by
  induction m with
  | nil => simpa [mapInsert] using hp
  | cons q rest ih =>
    obtain ⟨k1, v1⟩ := q
    by_cases h : k1 = k
    · simp only [mapInsert, if_pos h, List.mem_cons] at hp
      rcases hp with hp | hp
      · exact Or.inl hp
      · exact Or.inr (List.mem_cons_of_mem _ hp)
    · simp only [mapInsert, if_neg h, List.mem_cons] at hp
      rcases hp with hp | hp
      · exact Or.inr (List.mem_cons.2 (Or.inl hp))
      · rcases ih hp with h2 | h2
        · exact Or.inl h2
        · exact Or.inr (List.mem_cons_of_mem _ h2)

theorem mem_keys_mapInsert (m : List (Int × Task)) (k : Int) (v : Task) (a : Int)
    (ha : a ∈ (mapInsert m k v).map Prod.fst) : a = k ∨ a ∈ m.map Prod.fst := by
  simp only [List.mem_map] at ha
  obtain ⟨p, hp, rfl⟩ := ha
  rcases mem_mapInsert m k v p hp with h | h
  · exact Or.inl (by simp [h])
  · exact Or.inr (List.mem_map_of_mem _ h)

theorem nodup_keys_mapInsert (m : List (Int × Task)) (k : Int) (v : Task)
    (h : (m.map Prod.fst).Nodup) : ((mapInsert m k v).map Prod.fst).Nodup := by
  induction m with
  | nil => simp [mapInsert]
  | cons p rest ih =>
    obtain ⟨k1, v1⟩ := p
    simp only [List.map_cons, List.nodup_cons] at h
    by_cases hk : k1 = k
    · simp only [mapInsert, if_pos hk, List.map_cons, List.nodup_cons]
      refine ⟨?_, h.2⟩
      rw [← hk]
      exact h.1
    · simp only [mapInsert, if_neg hk, List.map_cons, List.nodup_cons]
      refine ⟨?_, ih h.2⟩
      intro hmem
      rcases mem_keys_mapInsert rest k v k1 hmem with h1 | h1
      · exact hk h1
      · exact h.1 h1

theorem mapLookup_eq_some_mem (m : List (Int × Task)) (k : Int) (t : Task)
    (h : mapLookup m k = some t) : (k, t) ∈ m := by
  induction m with
  | nil => simp [mapLookup] at h
  | cons p rest ih =>
    obtain ⟨k1, v1⟩ := p
    by_cases h1 : k1 = k
    · simp only [mapLookup, if_pos h1] at h
      injection h with h
      rw [← h1, ← h]
      exact List.mem_cons_self _ _
    · simp only [mapLookup, if_neg h1] at h
      exact List.mem_cons_of_mem _ (ih h)

theorem mapLookup_eq_none_of_lt (s : Store) (h : WF s) (k : Int)
    (hk : s.nextID ≤ k) : mapLookup s.tasks k = none := by
  cases hl : mapLookup s.tasks k with
  | none => rfl
  | some t =>
    have hm := mapLookup_eq_some_mem _ _ _ hl
    have := (h.2 _ hm).2
    omega

theorem length_mapInsert_of_lookup_none (m : List (Int × Task)) (k : Int) (v : Task)
    (h : mapLookup m k = none) : (mapInsert m k v).length = m.length + 1 := by
  induction m with
  | nil => rfl
  | cons p rest ih =>
    obtain ⟨k1, v1⟩ := p
    by_cases h1 : k1 = k
    · simp [mapLookup, h1] at h
    · simp only [mapLookup, if_neg h1] at h
      simp [mapInsert, h1, ih h]


/-! ### Handler-level lemmas -/

theorem applyUpdate_eq (dOpt : Option String) (bOpt : Option Bool) (t : Task) :
    applyUpdate ⟨dOpt, bOpt⟩ t = ⟨t.id, dOpt.getD t.description, bOpt.getD t.done⟩ := by
  cases dOpt <;> cases bOpt <;> rfl

theorem applyUpdate_id (input : UpdateInput) (t : Task) :
    (applyUpdate input t).id = t.id := by
  obtain ⟨dOpt, bOpt⟩ := input
  rw [applyUpdate_eq]

theorem createTaskHandler_success (s : Store) (d : String) (hd : d ≠ "") :
    createTaskHandler s (some ⟨d⟩) =
      (⟨mapInsert s.tasks s.nextID ⟨s.nextID, d, false⟩, s.nextID + 1⟩,
        ⟨201, some ctJSON, .task ⟨s.nextID, d, false⟩⟩) := by
  simp [createTaskHandler, hd]

theorem updateTaskHandler_success (s : Store) (idStr : String) (id : Int)
    (input : UpdateInput) (t : Task) (hid : atoi idStr = some id)
    (ht : mapLookup s.tasks id = some t) :
    updateTaskHandler s idStr (some input) =
      (⟨mapInsert s.tasks id (applyUpdate input t), s.nextID⟩,
        ⟨200, some ctJSON, .task (applyUpdate input t)⟩) := by
  simp [updateTaskHandler, hid, ht]

theorem deleteTaskHandler_success (s : Store) (idStr : String) (id : Int) (t : Task)
    (hid : atoi idStr = some id) (ht : mapLookup s.tasks id = some t) :
    deleteTaskHandler s idStr = (⟨mapErase s.tasks id, s.nextID⟩, ⟨204, none, .empty⟩) := by
  simp [deleteTaskHandler, hid, ht]

theorem getTaskHandler_fst (s : Store) (idStr : String) :
    (getTaskHandler s idStr).1 = s := by
  cases hid : atoi idStr with
  | none => simp [getTaskHandler, hid]
  | some id =>
    cases ht : mapLookup s.tasks id with
    | none => simp [getTaskHandler, hid, ht]
    | some t => simp [getTaskHandler, hid, ht]

theorem nextID_mono (s : Store) (op : Op) : s.nextID ≤ ((stepOp s op).1).nextID := by
  cases op with
  | health => exact le_refl _
  | list => exact le_refl _
  | get i => rw [stepOp, getTaskHandler_fst]
  | create b =>
    show s.nextID ≤ ((createTaskHandler s b).1).nextID
    cases b with
    | none => exact le_refl _
    | some input =>
      by_cases hd : input.description = "" <;> simp [createTaskHandler, hd]
  | update i b =>
    show s.nextID ≤ ((updateTaskHandler s i b).1).nextID
    cases hid : atoi i with
    | none => simp [updateTaskHandler, hid]
    | some id =>
      cases b with
      | none => simp [updateTaskHandler, hid]
      | some input =>
        cases ht : mapLookup s.tasks id with
        | none => simp [updateTaskHandler, hid, ht]
        | some t => simp [updateTaskHandler, hid, ht]
  | delete i =>
    show s.nextID ≤ ((deleteTaskHandler s i).1).nextID
    cases hid : atoi i with
    | none => simp [deleteTaskHandler, hid]
    | some id =>
      cases ht : mapLookup s.tasks id with
      | none => simp [deleteTaskHandler, hid, ht]
      | some t => simp [deleteTaskHandler, hid, ht]

theorem wf_create (s : Store) (b : Option CreateInput) (h : WF s) :
    WF (createTaskHandler s b).1 := by
  cases b with
  | none => exact h
  | some input =>
    by_cases hd : input.description = ""
    · simpa [createTaskHandler, hd] using h
    · obtain ⟨d⟩ := input
      rw [createTaskHandler_success s d (by simpa using hd)]
      dsimp only
      refine ⟨nodup_keys_mapInsert _ _ _ h.1, ?_⟩
      intro p hp
      rcases mem_mapInsert _ _ _ _ hp with rfl | hp
      · exact ⟨rfl, by show s.nextID < s.nextID + 1; omega⟩
      · obtain ⟨h1, h2⟩ := h.2 p hp
        exact ⟨h1, by show p.1 < s.nextID + 1; omega⟩

theorem wf_update (s : Store) (i : String) (b : Option UpdateInput) (h : WF s) :
    WF (updateTaskHandler s i b).1 := by
  cases hid : atoi i with
  | none => simpa [updateTaskHandler, hid] using h
  | some id =>
    cases b with
    | none => simpa [updateTaskHandler, hid] using h
    | some input =>
      cases ht : mapLookup s.tasks id with
      | none => simpa [updateTaskHandler, hid, ht] using h
      | some t =>
        rw [updateTaskHandler_success s i id input t hid ht]
        dsimp only
        have hmem := mapLookup_eq_some_mem _ _ _ ht
        obtain ⟨hid2, hlt⟩ := h.2 _ hmem
        refine ⟨nodup_keys_mapInsert _ _ _ h.1, ?_⟩
        intro p hp
        rcases mem_mapInsert _ _ _ _ hp with rfl | hp
        · exact ⟨by rw [applyUpdate_id]; exact hid2, hlt⟩
        · exact h.2 p hp

theorem wf_delete (s : Store) (i : String) (h : WF s) :
    WF (deleteTaskHandler s i).1 := by
  cases hid : atoi i with
  | none => simpa [deleteTaskHandler, hid] using h
  | some id =>
    cases ht : mapLookup s.tasks id with
    | none => simpa [deleteTaskHandler, hid, ht] using h
    | some t =>
      rw [deleteTaskHandler_success s i id t hid ht]
      dsimp only
      refine ⟨?_, ?_⟩
      · exact ((List.filter_sublist _).map Prod.fst).nodup h.1
      · intro p hp
        exact h.2 p (List.mem_of_mem_filter hp)

theorem wf_stepOp (s : Store) (op : Op) (h : WF s) : WF (stepOp s op).1 := by
  cases op with
  | health => exact h
  | list => exact h
  | get i => rw [stepOp, getTaskHandler_fst]; exact h
  | create b => exact wf_create s b h
  | update i b => exact wf_update s i b h
  | delete i => exact wf_delete s i h

theorem wf_runOps (s : Store) (ops : List Op) (h : WF s) : WF (runOps s ops) := by
  induction ops generalizing s with
  | nil => exact h
  | cons op rest ih => exact ih _ (wf_stepOp s op h)


/-! ### Sequences of creates -/

/-- The ids `a, a+1, ..., a+n-1`. -/
def idsFrom (a : Int) (n : Nat) : List Int :=
  (List.range n).map (fun (i : Nat) => a + (i : Int))

theorem idsFrom_zero (a : Int) : idsFrom a 0 = [] := rfl

theorem idsFrom_succ (a : Int) (n : Nat) :
    idsFrom a (n + 1) = a :: idsFrom (a + 1) n := by
  unfold idsFrom
  rw [List.range_succ_eq_map, List.map_cons, List.map_map]
  congr 1
  · simp
  · apply List.map_congr_left
    intro i _
    simp only [Function.comp_apply]
    push_cast
    ring

theorem idsFrom_append (a : Int) (n : Nat) :
    idsFrom a (n + 1) = idsFrom a n ++ [a + n] := by
  unfold idsFrom
  rw [List.range_succ, List.map_append]
  rfl

theorem pairwise_lt_idsFrom (a : Int) (n : Nat) :
    (idsFrom a n).Pairwise (· < ·) := by
  induction n with
  | zero => simp [idsFrom_zero]
  | succ n ih =>
    rw [idsFrom_append, List.pairwise_append]
    refine ⟨ih, by simp, ?_⟩
    intro x hx y hy
    simp only [idsFrom, List.mem_map, List.mem_range] at hx
    simp only [List.mem_singleton] at hy
    obtain ⟨i, hi, rfl⟩ := hx
    subst hy
    omega

theorem runCreates_spec (ds : List String) (s : Store) (hds : ∀ d ∈ ds, d ≠ "") :
    (runCreates s ds).2 = idsFrom s.nextID ds.length
    ∧ (runCreates s ds).1.nextID = s.nextID + ds.length := by
  induction ds generalizing s with
  | nil => simp [runCreates, idsFrom_zero]
  | cons d rest ih =>
    have hd : d ≠ "" := hds d (List.mem_cons_self _ _)
    have hrest : ∀ x ∈ rest, x ≠ "" := fun x hx => hds x (List.mem_cons_of_mem _ hx)
    obtain ⟨ih1, ih2⟩ :=
      ih ⟨mapInsert s.tasks s.nextID ⟨s.nextID, d, false⟩, s.nextID + 1⟩ hrest
    dsimp only at ih1 ih2
    constructor
    · simp only [runCreates, createTaskHandler_success s d hd]
      rw [ih1, List.length_cons, idsFrom_succ]
      rfl
    · simp only [runCreates, createTaskHandler_success s d hd]
      rw [ih2, List.length_cons]
      push_cast
      ring

theorem runCreates_fst (ds : List String) (s : Store) :
    (runCreates s ds).1 = runOps s (ds.map (fun d => Op.create (some ⟨d⟩))) := by
  induction ds generalizing s with
  | nil => rfl
  | cons d rest ih => simp only [runCreates, runOps, List.map_cons, List.foldl_cons, ih, stepOp]

theorem length_runCreates (ds : List String) (s : Store) (hwf : WF s)
    (hds : ∀ d ∈ ds, d ≠ "") :
    ((runCreates s ds).1).tasks.length = s.tasks.length + ds.length := by
  induction ds generalizing s with
  | nil => simp [runCreates]
  | cons d rest ih =>
    have hd : d ≠ "" := hds d (List.mem_cons_self _ _)
    have hrest : ∀ x ∈ rest, x ≠ "" := fun x hx => hds x (List.mem_cons_of_mem _ hx)
    have hfresh : mapLookup s.tasks s.nextID = none :=
      mapLookup_eq_none_of_lt s hwf s.nextID (le_refl _)
    have hwf2 : WF (⟨mapInsert s.tasks s.nextID ⟨s.nextID, d, false⟩, s.nextID + 1⟩ : Store) := by
      have := wf_create s (some ⟨d⟩) hwf
      rwa [createTaskHandler_success s d hd] at this
    simp only [runCreates, createTaskHandler_success s d hd]
    rw [ih _ hwf2 hrest]
    show (mapInsert s.tasks s.nextID ⟨s.nextID, d, false⟩).length + rest.length
      = s.tasks.length + (d :: rest).length
    rw [length_mapInsert_of_lookup_none _ _ _ hfresh, List.length_cons]
    omega


/-! ### Claim theorems -/

/-- C1: starting from the empty store, `n` successful creates are assigned
exactly the ids `1..n`, strictly increasing in creation order; the
`nextID` counter is bumped by one on every successful create and no
operation ever decrements it, so an id freed by a delete is never handed
out again. -/
theorem creation_ids_sequential (ds : List String) (hds : ∀ d ∈ ds, d ≠ "") :
    createdIds ds = idsFrom 1 ds.length
    ∧ (createdIds ds).Pairwise (· < ·)
    ∧ (∀ s op, s.nextID ≤ ((stepOp s op).1).nextID)
    ∧ (∀ s d, d ≠ "" → ((createTaskHandler s (some ⟨d⟩)).1).nextID = s.nextID + 1) := by
  have h1 : createdIds ds = idsFrom 1 ds.length := by
    have h := (runCreates_spec ds Store.init hds).1
    simpa [createdIds, Store.init] using h
  refine ⟨h1, ?_, nextID_mono, ?_⟩
  · rw [h1]
    exact pairwise_lt_idsFrom 1 ds.length
  · intro s d hd
    rw [createTaskHandler_success s d hd]

/-- Witness for C1 at three concrete creates. -/
theorem creation_ids_sequential_witness :
    createdIds ["a", "b", "c"] = [1, 2, 3] := by
  have h := (creation_ids_sequential ["a", "b", "c"] (by decide)).1
  rw [h]
  decide

/-- C2: updating a stored task replaces exactly the supplied fields — an
absent `description` or `done` leaves the stored value untouched, a
present one (even `""` or `false`) overwrites it — keeps the task's `id`,
touches no other key, and returns the patched task with 200. -/
theorem update_is_partial (s : Store) (idStr : String) (id : Int) (t : Task)
    (dOpt : Option String) (bOpt : Option Bool)
    (hid : atoi idStr = some id) (ht : mapLookup s.tasks id = some t) :
    mapLookup ((updateTaskHandler s idStr (some ⟨dOpt, bOpt⟩)).1).tasks id
        = some ⟨t.id, dOpt.getD t.description, bOpt.getD t.done⟩
    ∧ (updateTaskHandler s idStr (some ⟨dOpt, bOpt⟩)).2
        = ⟨200, some ctJSON, .task ⟨t.id, dOpt.getD t.description, bOpt.getD t.done⟩⟩
    ∧ (∀ k, k ≠ id → mapLookup ((updateTaskHandler s idStr (some ⟨dOpt, bOpt⟩)).1).tasks k
        = mapLookup s.tasks k)
    ∧ ((updateTaskHandler s idStr (some ⟨dOpt, bOpt⟩)).1).nextID = s.nextID := by
  rw [updateTaskHandler_success s idStr id ⟨dOpt, bOpt⟩ t hid ht, applyUpdate_eq]
  refine ⟨mapLookup_mapInsert_self _ _ _, rfl, ?_, rfl⟩
  intro k hk
  exact mapLookup_mapInsert_ne _ _ _ _ hk

/-- Witness for C2: a payload carrying only `done=true` flips `done` and
keeps the description. -/
theorem update_is_partial_witness :
    mapLookup ((updateTaskHandler ⟨[(1, ⟨1, "x", false⟩)], 2⟩ "1"
        (some ⟨none, some true⟩)).1).tasks 1 = some ⟨1, "x", true⟩ := by
  have h := update_is_partial ⟨[(1, ⟨1, "x", false⟩)], 2⟩ "1" 1 ⟨1, "x", false⟩
      none (some true) (by decide) (by decide)
  simpa using h.1

/-- C3: update and delete on an id that is not in the store reply
`404 Task not found` and return the store completely unchanged (same map,
same `nextID`). -/
theorem notfound_no_mutation (s : Store) (idStr : String) (id : Int) (input : UpdateInput)
    (hid : atoi idStr = some id) (habs : mapLookup s.tasks id = none) :
    updateTaskHandler s idStr (some input) = (s, httpError "Task not found" 404)
    ∧ deleteTaskHandler s idStr = (s, httpError "Task not found" 404) := by
  constructor
  · simp [updateTaskHandler, hid, habs]
  · simp [deleteTaskHandler, hid, habs]

/-- Witness for C3 on the empty store. -/
theorem notfound_no_mutation_witness :
    updateTaskHandler Store.init "7" (some ⟨none, none⟩)
      = (Store.init, httpError "Task not found" 404) := by
  have h := notfound_no_mutation Store.init "7" 7 ⟨none, none⟩ (by decide) (by decide)
  exact h.1

/-- C4: deleting a present id replies 204 with no body, removes exactly
that entry (every other key reads unchanged), keeps `nextID`; a
subsequent get of the id is a 404, and repeating the delete is a 404 that
leaves the store unchanged. -/
theorem delete_removes_exactly (s : Store) (idStr : String) (id : Int) (t : Task)
    (hid : atoi idStr = some id) (ht : mapLookup s.tasks id = some t) :
    (deleteTaskHandler s idStr).2 = ⟨204, none, .empty⟩
    ∧ mapLookup ((deleteTaskHandler s idStr).1).tasks id = none
    ∧ (∀ k, k ≠ id → mapLookup ((deleteTaskHandler s idStr).1).tasks k = mapLookup s.tasks k)
    ∧ (getTaskHandler (deleteTaskHandler s idStr).1 idStr).2 = httpError "Task not found" 404
    ∧ deleteTaskHandler (deleteTaskHandler s idStr).1 idStr
        = ((deleteTaskHandler s idStr).1, httpError "Task not found" 404)
    ∧ ((deleteTaskHandler s idStr).1).nextID = s.nextID := by
  rw [deleteTaskHandler_success s idStr id t hid ht]
  have hnone : mapLookup (mapErase s.tasks id) id = none := mapLookup_mapErase_self _ _
  refine ⟨rfl, hnone, ?_, ?_, ?_, rfl⟩
  · intro k hk
    exact mapLookup_mapErase_ne _ _ _ hk
  · simp [getTaskHandler, hid, hnone]
  · simp [deleteTaskHandler, hid, hnone]

/-- Witness for C4 on a one-task store. -/
theorem delete_removes_exactly_witness :
    (deleteTaskHandler ⟨[(1, ⟨1, "x", false⟩)], 2⟩ "1").2 = ⟨204, none, .empty⟩ := by
  have h := delete_removes_exactly ⟨[(1, ⟨1, "x", false⟩)], 2⟩ "1" 1 ⟨1, "x", false⟩
      (by decide) (by decide)
  exact h.1

/-- C5: a create with non-empty description `d` replies 201 with the new
task `⟨nextID, d, false⟩` — description stored verbatim, `done`
initialized to `false` — and an immediate get of the returned id replies
200 with that same task. -/
theorem get_after_create (s : Store) (d : String) (idStr : String)
    (hd : d ≠ "") (hid : atoi idStr = some s.nextID) :
    (createTaskHandler s (some ⟨d⟩)).2 = ⟨201, some ctJSON, .task ⟨s.nextID, d, false⟩⟩
    ∧ (getTaskHandler (createTaskHandler s (some ⟨d⟩)).1 idStr).2
        = ⟨200, some ctJSON, .task ⟨s.nextID, d, false⟩⟩ := by
  rw [createTaskHandler_success s d hd]
  refine ⟨rfl, ?_⟩
  have hfound : mapLookup (mapInsert s.tasks s.nextID ⟨s.nextID, d, false⟩) s.nextID
      = some ⟨s.nextID, d, false⟩ := mapLookup_mapInsert_self _ _ _
  simp [getTaskHandler, hid, hfound]

/-- Witness for C5 from the empty store. -/
theorem get_after_create_witness :
    (getTaskHandler (createTaskHandler Store.init (some ⟨"buy milk"⟩)).1 "1").2
      = ⟨200, some ctJSON, .task ⟨1, "buy milk", false⟩⟩ := by
  have h := get_after_create Store.init "buy milk" "1" (by decide) (by decide)
  exact h.2


/-- C6: the list endpoint replies 200 with a snapshot of exactly the
stored tasks — a task is in the reply iff it is a value of the map, no
stored task appears twice — the store is left untouched, and the empty
store serializes to `[]`, never `null`. -/
theorem list_snapshot (s : Store) (hwf : WF s) :
    (getTasksHandler s).2 = ⟨200, some ctJSON, .taskList (s.tasks.map Prod.snd)⟩
    ∧ (∀ t, t ∈ s.tasks.map Prod.snd ↔ ∃ k, (k, t) ∈ s.tasks)
    ∧ (s.tasks.map Prod.snd).Nodup
    ∧ (s.tasks = [] → encodeBody ((getTasksHandler s).2).body = "[]")
    ∧ (getTasksHandler s).1 = s := by
  refine ⟨rfl, ?_, ?_, ?_, rfl⟩
  · intro t
    constructor
    · intro ht
      obtain ⟨p, hp, rfl⟩ := List.mem_map.1 ht
      exact ⟨p.1, hp⟩
    · rintro ⟨k, hk⟩
      exact List.mem_map.2 ⟨(k, t), hk, rfl⟩
  · have hnd : s.tasks.Nodup := List.Nodup.of_map Prod.fst hwf.1
    refine hnd.map_on ?_
    intro p hp q hq he
    have h1 := (hwf.2 p hp).1
    have h2 := (hwf.2 q hq).1
    have hk : p.1 = q.1 := by rw [← h1, ← h2, he]
    exact Prod.ext hk he
  · intro h
    show encodeBody (.taskList (s.tasks.map Prod.snd)) = "[]"
    rw [h]
    rfl

/-- Witness for C6 on a two-task store. -/
theorem list_snapshot_witness :
    ((getTasksHandler ⟨[(1, ⟨1, "a", false⟩), (2, ⟨2, "b", true⟩)], 3⟩).2).body
      = .taskList [⟨1, "a", false⟩, ⟨2, "b", true⟩] := by
  have h := list_snapshot ⟨[(1, ⟨1, "a", false⟩), (2, ⟨2, "b", true⟩)], 3⟩ (by decide)
  rw [h.1]
  rfl

/-- C7: a create whose decoded payload has an absent or empty
`description` (both decode to `""`) replies 400 with the
missing-description error and leaves the store — map and `nextID` —
exactly as it was. -/
theorem create_missing_description (s : Store) :
    createTaskHandler s (some ⟨""⟩)
      = (s, httpError "Missing \x27description\x27 in request body" 400) := by
  simp [createTaskHandler]

/-- C8 counterexample: the claim that no reachable task ever has an empty
description is false — an update that explicitly supplies `""` stores it
(the update handler never re-validates the description). -/
theorem update_stores_empty_description :
    mapLookup (runOps Store.init
        [.create (some ⟨"buy milk"⟩), .update "1" (some ⟨some "", none⟩)]).tasks 1
      = some ⟨1, "", false⟩ := by decide

/-- Every task currently stored has a non-empty description. -/
def descsNonEmpty (s : Store) : Prop := ∀ p ∈ s.tasks, p.2.description ≠ ""

instance (s : Store) : Decidable (descsNonEmpty s) := by
  unfold descsNonEmpty
  infer_instance

/-- The one kind of request that can break the non-empty-description
invariant: an update whose decoded payload supplies `description` as the
explicit empty string. -/
def suppliesEmptyDescription : Op → Prop
  | .update _ (some input) => input.description = some ""
  | _ => False

/-- C8 amended: create enforces a non-empty description, and every
operation except an update explicitly supplying `description = ""`
preserves the invariant that all stored descriptions are non-empty. -/
theorem nonempty_descriptions_preserved (s : Store) (op : Op)
    (h : descsNonEmpty s) (hop : ¬ suppliesEmptyDescription op) :
    descsNonEmpty (stepOp s op).1 := by
  cases op with
  | health => exact h
  | list => exact h
  | get i =>
    rw [stepOp, getTaskHandler_fst]
    exact h
  | create b =>
    show descsNonEmpty (createTaskHandler s b).1
    cases b with
    | none => exact h
    | some input =>
      by_cases hd : input.description = ""
      · simpa [createTaskHandler, hd] using h
      · obtain ⟨d⟩ := input
        rw [createTaskHandler_success s d (by simpa using hd)]
        intro p hp
        rcases mem_mapInsert _ _ _ _ hp with rfl | hp
        · simpa using hd
        · exact h p hp
  | update i b =>
    show descsNonEmpty (updateTaskHandler s i b).1
    cases hid : atoi i with
    | none => simpa [updateTaskHandler, hid] using h
    | some id =>
      cases b with
      | none => simpa [updateTaskHandler, hid] using h
      | some input =>
        cases ht : mapLookup s.tasks id with
        | none => simpa [updateTaskHandler, hid, ht] using h
        | some t =>
          rw [updateTaskHandler_success s i id input t hid ht]
          intro p hp
          rcases mem_mapInsert _ _ _ _ hp with rfl | hp
          · obtain ⟨dOpt, bOpt⟩ := input
            rw [applyUpdate_eq]
            cases dOpt with
            | none =>
              have hne := h _ (mapLookup_eq_some_mem _ _ _ ht)
              simpa using hne
            | some d =>
              intro he
              exact hop (by simpa [suppliesEmptyDescription] using he)
          · exact h p hp
  | delete i =>
    show descsNonEmpty (deleteTaskHandler s i).1
    cases hid : atoi i with
    | none => simpa [deleteTaskHandler, hid] using h
    | some id =>
      cases ht : mapLookup s.tasks id with
      | none => simpa [deleteTaskHandler, hid, ht] using h
      | some t =>
        rw [deleteTaskHandler_success s i id t hid ht]
        intro p hp
        exact h p (List.mem_of_mem_filter hp)

/-- Witness for the amended C8: an update supplying only `done` keeps the
description invariant. -/
theorem nonempty_descriptions_preserved_witness :
    descsNonEmpty (stepOp ⟨[(1, ⟨1, "a", false⟩)], 2⟩ (.update "1" (some ⟨none, some true⟩))).1 :=
  nonempty_descriptions_preserved ⟨[(1, ⟨1, "a", false⟩)], 2⟩
    (.update "1" (some ⟨none, some true⟩)) (by decide)
    (by simp [suppliesEmptyDescription])

/-- C9 counterexample: the error replies go through `http.Error`, whose
Content-Type is `text/plain; charset=utf-8`, not `application/json` — so
an error (JSON-shaped) body is not served as JSON. -/
theorem error_response_plaintext :
    ((createTaskHandler Store.init none).2).status = 400
    ∧ ((createTaskHandler Store.init none).2).contentType = some ctPlain
    ∧ ctPlain ≠ ctJSON := by
  refine ⟨rfl, rfl, by decide⟩

/-- The response discipline the handlers actually follow: every non-2xx
reply is a JSON-shaped error object `\x7b"error": msg\x7d` served as
`text/plain; charset=utf-8` (the `http.Error` default); every 200/201
reply carries `application/json`; the 204 reply has no body and no
Content-Type. -/
def wellShaped (r : Response) : Prop :=
  (400 ≤ r.status →
    (∃ msg, r.body = RespBody.errorObj msg ∧ encodeBody r.body = encodeError msg)
    ∧ r.contentType = some ctPlain)
  ∧ ((r.status = 200 ∨ r.status = 201) → r.contentType = some ctJSON)
  ∧ (r.status = 204 → r.contentType = none ∧ r.body = RespBody.empty)

theorem wellShaped_httpError (msg : String) (code : Nat) (h4 : 400 ≤ code) :
    wellShaped (httpError msg code) := by
  refine ⟨fun _ => ⟨⟨msg, rfl, rfl⟩, rfl⟩, fun h => ?_, fun h => ?_⟩
  · exfalso
    have : code = 200 ∨ code = 201 := h
    omega
  · exfalso
    have : code = 204 := h
    omega

theorem wellShaped_json (b : RespBody) (st : Nat) (h : st = 200 ∨ st = 201) :
    wellShaped ⟨st, some ctJSON, b⟩ := by
  refine ⟨fun h4 => ?_, fun _ => rfl, fun h2 => ?_⟩
  · exfalso
    have h4a : 400 ≤ st := h4
    rcases h with h | h <;> omega
  · exfalso
    have h2a : st = 204 := h2
    rcases h with h | h <;> omega

theorem wellShaped_noContent : wellShaped ⟨204, none, RespBody.empty⟩ := by
  refine ⟨fun h4 => ?_, fun h2 => ?_, fun _ => ⟨rfl, rfl⟩⟩
  · exfalso
    have h4a : (400 : Nat) ≤ 204 := h4
    omega
  · exfalso
    have h2a : (204 : Nat) = 200 ∨ (204 : Nat) = 201 := h2
    rcases h2a with h2a | h2a <;> omega

/-- C9 amended: every reply of every handler is well shaped — errors are
`\x7b"error": string\x7d` bodies with a non-2xx status served as
`text/plain; charset=utf-8` (not `application/json`, which only the
200/201 success replies carry), and 204 is empty. -/
theorem response_taxonomy (s : Store) (op : Op) : wellShaped ((stepOp s op).2) := by
  cases op with
  | health => exact wellShaped_json _ _ (Or.inl rfl)
  | list => exact wellShaped_json _ _ (Or.inl rfl)
  | get i =>
    show wellShaped ((getTaskHandler s i).2)
    cases hid : atoi i with
    | none =>
      simp only [getTaskHandler, hid]
      exact wellShaped_httpError _ _ (by omega)
    | some id =>
      cases ht : mapLookup s.tasks id with
      | none =>
        simp only [getTaskHandler, hid, ht]
        exact wellShaped_httpError _ _ (by omega)
      | some t =>
        simp only [getTaskHandler, hid, ht]
        exact wellShaped_json _ _ (Or.inl rfl)
  | create b =>
    show wellShaped ((createTaskHandler s b).2)
    cases b with
    | none => exact wellShaped_httpError _ _ (by omega)
    | some input =>
      by_cases hd : input.description = ""
      · simp only [createTaskHandler, hd, if_pos]
        exact wellShaped_httpError _ _ (by omega)
      · rw [createTaskHandler_success s input.description hd]
        exact wellShaped_json _ _ (Or.inr rfl)
  | update i b =>
    show wellShaped ((updateTaskHandler s i b).2)
    cases hid : atoi i with
    | none =>
      simp only [updateTaskHandler, hid]
      exact wellShaped_httpError _ _ (by omega)
    | some id =>
      cases b with
      | none =>
        simp only [updateTaskHandler, hid]
        exact wellShaped_httpError _ _ (by omega)
      | some input =>
        cases ht : mapLookup s.tasks id with
        | none =>
          simp only [updateTaskHandler, hid, ht]
          exact wellShaped_httpError _ _ (by omega)
        | some t =>
          rw [updateTaskHandler_success s i id input t hid ht]
          exact wellShaped_json _ _ (Or.inl rfl)
  | delete i =>
    show wellShaped ((deleteTaskHandler s i).2)
    cases hid : atoi i with
    | none =>
      simp only [deleteTaskHandler, hid]
      exact wellShaped_httpError _ _ (by omega)
    | some id =>
      cases ht : mapLookup s.tasks id with
      | none =>
        simp only [deleteTaskHandler, hid, ht]
        exact wellShaped_httpError _ _ (by omega)
      | some t =>
        rw [deleteTaskHandler_success s i id t hid ht]
        exact wellShaped_noContent

/-- Witness for the amended C9 at a concrete invalid-id request. -/
theorem response_taxonomy_witness :
    ((stepOp Store.init (.get "abc")).2).contentType = some ctPlain :=
  ((response_taxonomy Store.init (.get "abc")).1 (by decide)).2

/-- C10: with each create serialized by the store's mutex, any
interleaving of `n` creates from any well-formed state is some sequence
of `n` atomic creates: the assigned ids are pairwise distinct and the
store grows by exactly `n` — no duplicate ids, no lost increment. -/
theorem concurrent_creates (s : Store) (ds : List String) (hwf : WF s)
    (hds : ∀ d ∈ ds, d ≠ "") :
    ((runCreates s ds).1).tasks.length = s.tasks.length + ds.length
    ∧ ((runCreates s ds).2).Pairwise (· ≠ ·) := by
  refine ⟨length_runCreates ds s hwf hds, ?_⟩
  rw [(runCreates_spec ds s hds).1]
  exact (pairwise_lt_idsFrom _ _).imp (fun h => ne_of_lt h)

/-- Witness for C10: three creates on a one-task store. -/
theorem concurrent_creates_witness :
    ((runCreates ⟨[(1, ⟨1, "a", false⟩)], 2⟩ ["b", "c", "d"]).1).tasks.length = 4 := by
  have h := concurrent_creates ⟨[(1, ⟨1, "a", false⟩)], 2⟩ ["b", "c", "d"]
      (by decide) (by decide)
  rw [h.1]
  rfl

end TaskAPI
